import Mathlib

/-!
A verification development for `get_calendar_details.py`.

The script's behaviour is: read and JSON-parse `credentials.json`, build a
`GoogleOAuthManager` from the parsed secrets (no explicit redirect URI),
call `authenticate_via_local_server(scopes=[Scopes.CALENDAR])`, and
`json.dump` the returned object into `user_token.json` (opened with mode `w`,
which truncates).

The embedding below models:
 * Python values that can flow through `json.load` / `json.dump`
   (`PyValue`; `pyobj` stands for any object the encoder cannot serialize,
   and dict keys are strings, as they are for every credential structure);
 * CPython's `json.dump` with its default options (`ensure_ascii=True`,
   separators `", "` and `": "`), including the streaming behaviour of the
   pure-Python encoder: when it meets a non-serializable object it raises
   `TypeError` only after the chunks before that point were written (`emit`
   returns the written prefix and a success flag);
 * `json.load` as a recursive-descent reader (`readVal`), including `\uXXXX`
   escapes, surrogate-pair decoding, the full number grammar of the
   decoder's scanner (a `0`-or-nonzero-led integer part, optional fraction
   and exponent making a float, and the `NaN`/`Infinity`/`-Infinity`
   constants), and dict construction that collapses duplicate keys the way
   building a Python dict does.  The reader accepts exactly the texts
   `json.load` accepts; the one value-level stand-in is that a lone
   surrogate in a `\uXXXX` escape, which Python keeps in the decoded
   string but a Lean `Char` cannot hold, decodes to `Char.ofNat`'s fallback
   character, and floats are kept as exact decimals rather than rounded
   IEEE doubles — no claim observes either value.
 * the script itself (`run`) as a function of the initial filesystem and of
   the external OAuth library's behaviour (`Ext`), producing the final
   filesystem, an event trace and an outcome.
-/

/-! ### Python values -/

/-- A Python value as far as `json.dump`/`json.load` are concerned.
`pyobj` is any object of a type the encoder does not know (it carries only a
type name); everything else maps to JSON.  Integers are modelled as `Int`;
a finite float is kept as the exact decimal `mant * 10 ^ exp10` the decoder
read (CPython rounds that decimal to the nearest IEEE double — no claim
observes a float's value, only whether a text is accepted), with `pynan`
and `pyinf` for the `NaN`/`Infinity`/`-Infinity` constants `json.load`
accepts by default; dict keys are strings. -/
inductive PyValue where
  | pynull
  | pybool (b : Bool)
  | pyint (n : Int)
  | pyfloat (mant : Int) (exp10 : Int)
  | pynan
  | pyinf (neg : Bool)
  | pystr (s : List Char)
  | pylist (xs : List PyValue)
  | pydict (ms : List (List Char × PyValue))
  | pyobj (typeName : List Char)

instance : Inhabited PyValue := ⟨.pynull⟩

/-! ### The encoder: CPython `json.dump` with default options -/

/-- One hexadecimal digit, lowercase, as CPython's `ensure_ascii` writes it. -/
def hexDigit (n : Nat) : Char :=
  if n < 10 then Char.ofNat (48 + n) else Char.ofNat (87 + n)

/-- Four lowercase hex digits of `n < 0x10000`, most significant first. -/
def hex4 (n : Nat) : List Char :=
  [hexDigit (n / 4096 % 16), hexDigit (n / 256 % 16), hexDigit (n / 16 % 16), hexDigit (n % 16)]

/-- `\uXXXX` form of a code point, as a surrogate pair when it is astral. -/
def uEsc (n : Nat) : List Char :=
  if n < 0x10000 then '\\' :: 'u' :: hex4 n
  else
    ('\\' :: 'u' :: hex4 (0xd800 + (n - 0x10000) / 0x400))
      ++ ('\\' :: 'u' :: hex4 (0xdc00 + (n - 0x10000) % 0x400))

/-- How `json.dump` writes one character of a string: the two-character
escapes, direct output for printable ASCII, `\uXXXX` for the rest
(`ensure_ascii=True` escapes everything outside `0x20`–`0x7e`). -/
def escChar (c : Char) : List Char :=
  if c = '"' then ['\\', '"']
  else if c = '\\' then ['\\', '\\']
  else if c = '\n' then ['\\', 'n']
  else if c = '\r' then ['\\', 'r']
  else if c = '\t' then ['\\', 't']
  else if c = '\x08' then ['\\', 'b']
  else if c = '\x0c' then ['\\', 'f']
  else if c.toNat < 0x20 ∨ 0x7e < c.toNat then uEsc c.toNat
  else [c]

/-- The escaped body of a string followed by the closing quote. -/
def escBody : List Char → List Char
  | [] => ['"']
  | c :: cs => escChar c ++ escBody cs

/-- A whole encoded string: opening quote, escaped body, closing quote. -/
def escString (s : List Char) : List Char := '"' :: escBody s

/-- Decimal digit character of `d < 10`. -/
def digitChar (d : Nat) : Char := Char.ofNat (48 + d)

/-- Decimal digits, most significant first, structurally recursive on a fuel
bound so that it computes by kernel reduction (`natDigits` supplies enough). -/
def natDigitsAux : Nat → Nat → List Char
  | 0, _ => []
  | fuel + 1, n => if n < 10 then [digitChar n] else natDigitsAux fuel (n / 10) ++ [digitChar (n % 10)]

/-- Decimal digits of `n`, most significant first (`0` is `"0"`). -/
def natDigits (n : Nat) : List Char := natDigitsAux (n + 1) n

/-- An integer as `repr` writes it: optional minus sign, then digits. -/
def intChars (i : Int) : List Char :=
  if i < 0 then '-' :: natDigits i.natAbs else natDigits i.toNat

/-- Stand-in for how `json.dump` writes a finite float: the exact decimal
in `<mant>e<exp10>` form.  CPython writes `repr` of the IEEE double — the
shortest decimal that rounds back to it — which the exact-decimal model
cannot reproduce; no claim depends on a float's written bytes (`wfV`
excludes floats wherever byte-level output is stated). -/
def floatChars (mant exp10 : Int) : List Char := intChars mant ++ 'e' :: intChars exp10

mutual
/-- The characters `json.dump(v, f)` writes, and whether it finished.
On a non-serializable object the pure-Python encoder raises `TypeError`
after the chunks for everything to its left (including any opening
bracket and, inside a dict, the already-encoded key and `": "`) were
already yielded and written; the first component is exactly that prefix,
and the second component is `false`.  On success the first component is
the complete document. -/
def emit : PyValue → List Char × Bool
  | .pynull => (['n', 'u', 'l', 'l'], true)
  | .pybool true => (['t', 'r', 'u', 'e'], true)
  | .pybool false => (['f', 'a', 'l', 's', 'e'], true)
  | .pyint n => (intChars n, true)
  | .pyfloat m e => (floatChars m e, true)
  | .pynan => (['N', 'a', 'N'], true)
  | .pyinf false => (['I', 'n', 'f', 'i', 'n', 'i', 't', 'y'], true)
  | .pyinf true => ('-' :: ['I', 'n', 'f', 'i', 'n', 'i', 't', 'y'], true)
  | .pystr s => (escString s, true)
  | .pylist [] => (['[', ']'], true)
  | .pylist (x :: xs) =>
      if (emit x).2 then ('[' :: ((emit x).1 ++ (emitElems xs).1), (emitElems xs).2)
      else ('[' :: (emit x).1, false)
  | .pydict [] => (['\x7b', '\x7d'], true)
  | .pydict ((k, v) :: ms) =>
      if (emit v).2 then
        ('\x7b' :: (escString k ++ ':' :: ' ' :: ((emit v).1 ++ (emitMembs ms).1)),
         (emitMembs ms).2)
      else ('\x7b' :: (escString k ++ ':' :: ' ' :: (emit v).1), false)
  | .pyobj _ => ([], false)

/-- The encoder's output after the first element of a list: for each further
element the separator `", "` and the element, then the closing bracket. -/
def emitElems : List PyValue → List Char × Bool
  | [] => ([']'], true)
  | x :: xs =>
      if (emit x).2 then (',' :: ' ' :: ((emit x).1 ++ (emitElems xs).1), (emitElems xs).2)
      else (',' :: ' ' :: (emit x).1, false)

/-- The encoder's output after the first member of a dict: `", "`, the encoded
key, `": "` and the value for each further member, then the closing brace. -/
def emitMembs : List (List Char × PyValue) → List Char × Bool
  | [] => (['\x7d'], true)
  | (k, v) :: ms =>
      if (emit v).2 then
        (',' :: ' ' :: (escString k ++ ':' :: ' ' :: ((emit v).1 ++ (emitMembs ms).1)),
         (emitMembs ms).2)
      else (',' :: ' ' :: (escString k ++ ':' :: ' ' :: (emit v).1), false)
end

/-- `json.dump` succeeds on `v` exactly when this is `true` (no `pyobj` inside). -/
def serializable (v : PyValue) : Bool := (emit v).2

/-- The full document `json.dump` writes for a serializable value. -/
def dumps (v : PyValue) : String := ⟨(emit v).1⟩

/-! ### The decoder: `json.load` -/

/-- JSON whitespace. -/
def isWs (c : Char) : Bool := c = ' ' || c = '\t' || c = '\n' || c = '\r'

/-- ASCII decimal digit. -/
def isDigitC (c : Char) : Bool := 48 ≤ c.toNat && c.toNat ≤ 57

/-- Drop leading JSON whitespace. -/
def skipWs : List Char → List Char
  | [] => []
  | c :: cs => if isWs c then skipWs cs else c :: cs

/-- Value of one hex digit (either case), if it is one. -/
def hexVal (c : Char) : Option Nat :=
  if 48 ≤ c.toNat ∧ c.toNat ≤ 57 then some (c.toNat - 48)
  else if 97 ≤ c.toNat ∧ c.toNat ≤ 102 then some (c.toNat - 87)
  else if 65 ≤ c.toNat ∧ c.toNat ≤ 70 then some (c.toNat - 55)
  else none

/-- Value of a four-hex-digit group, as in `\uXXXX`. -/
def hex4Val (a b c d : Char) : Option Nat :=
  match hexVal a, hexVal b, hexVal c, hexVal d with
  | some x, some y, some z, some w => some (4096 * x + 256 * y + 16 * z + w)
  | _, _, _, _ => none

/-- Prepend a decoded character to a string-reader result. -/
def consRes (c : Char) : Option (List Char × List Char) → Option (List Char × List Char) :=
  Option.map (fun p => (c :: p.1, p.2))

/-- The character named by a two-character escape, if the second character is
one of the eight short escapes. -/
def decodeEsc (e : Char) : Option Char :=
  if e = '"' then some '"'
  else if e = '\\' then some '\\'
  else if e = '/' then some '/'
  else if e = 'b' then some '\x08'
  else if e = 'f' then some '\x0c'
  else if e = 'n' then some '\n'
  else if e = 'r' then some '\r'
  else if e = 't' then some '\t'
  else none

/-- Decode a `\uXXXX` escape whose four hex digits are `a b c d`.  A plain
code point stands for itself; a high surrogate followed by a `\uXXXX` low
surrogate combines with it into an astral code point (as the encoder
writes astral characters).  A lone surrogate is accepted, as `json.load`
accepts it — Python keeps the surrogate in the decoded string, which a
Lean `Char` cannot, so the model decodes it to `Char.ofNat`'s fallback
character; no claim observes the decoded value of such a text.  A second
`\u` group with broken hex digits is an error, exactly as in Python's
scanner, which decodes the lookahead group before the pairing test. -/
def readU (a b c d : Char) (cs3 : List Char) : Option (Char × List Char) :=
  match hex4Val a b c d with
  | none => none
  | some n =>
    if n < 0xd800 ∨ 0xdfff < n then some (Char.ofNat n, cs3)
    else if n ≤ 0xdbff then
      match cs3 with
      | s1 :: s2 :: a2 :: b2 :: c3 :: d2 :: cs4 =>
        if s1 = '\\' ∧ s2 = 'u' then
          match hex4Val a2 b2 c3 d2 with
          | none => none
          | some m =>
            if 0xdc00 ≤ m ∧ m ≤ 0xdfff then
              some (Char.ofNat (0x10000 + (n - 0xd800) * 0x400 + (m - 0xdc00)), cs4)
            else some (Char.ofNat n, cs3)
        else some (Char.ofNat n, cs3)
      | _ => some (Char.ofNat n, cs3)
    else some (Char.ofNat n, cs3)

/-- Read one character of a string body (the caller has already ruled out the
closing quote): a backslash starts an escape, unescaped control characters
are rejected (strict mode), anything else stands for itself. -/
def readOne (c : Char) (cs : List Char) : Option (Char × List Char) :=
  if c = '\\' then
    match cs with
    | [] => none
    | e :: cs2 =>
      if e = 'u' then
        match cs2 with
        | a :: b :: c2 :: d :: cs3 => readU a b c2 d cs3
        | _ => none
      else (decodeEsc e).map (fun ch => (ch, cs2))
  else if c.toNat < 0x20 then none
  else some (c, cs)

/-- Read a string body after the opening quote, one character at a time,
until the closing quote (`fuel` bounds the recursion). -/
def readStrF : Nat → List Char → Option (List Char × List Char)
  | 0, _ => none
  | fuel + 1, cs =>
    match cs with
    | [] => none
    | c :: cs2 =>
      if c = '"' then some ([], cs2)
      else
        match readOne c cs2 with
        | some (ch, r) => consRes ch (readStrF fuel r)
        | none => none

/-- Read a string body after the opening quote.  Every step of `readStrF`
consumes at least one character, so this fuel always suffices. -/
def readStr (cs : List Char) : Option (List Char × List Char) :=
  readStrF (cs.length + 1) cs

/-- Accumulate a run of decimal digits, stopping at the first non-digit. -/
def readNatAux (acc : Nat) : List Char → Nat × List Char
  | [] => (acc, [])
  | c :: cs => if isDigitC c then readNatAux (10 * acc + (c.toNat - 48)) cs else (acc, c :: cs)

/-- Accumulate a run of decimal digits, also counting them. -/
def readNatCnt (acc cnt : Nat) : List Char → Nat × Nat × List Char
  | [] => (acc, cnt, [])
  | c :: cs =>
    if isDigitC c then readNatCnt (10 * acc + (c.toNat - 48)) (cnt + 1) cs
    else (acc, cnt, c :: cs)

/-- The integer part of a number, as the decoder's scanner matches it: a
single `0`, or a digit run led by a nonzero digit (so `01` is the number
`0` followed by stray text the surrounding context rejects, as in Python). -/
def readIntPart : List Char → Nat × List Char
  | [] => (0, [])
  | c :: cs => if c = '0' then (0, cs) else readNatAux 0 (c :: cs)

/-- The optional fraction of a number: a dot and at least one digit,
giving the digits' value and their count; anything else — including a dot
not followed by a digit — is left unconsumed, as the scanner's regular
expression leaves it. -/
def readFracPart : List Char → Option (Nat × Nat) × List Char
  | [] => (none, [])
  | c :: cs =>
    if c = '.' then
      match cs with
      | [] => (none, c :: cs)
      | d :: cs2 =>
        if isDigitC d then
          (some ((readNatCnt 0 0 (d :: cs2)).1, (readNatCnt 0 0 (d :: cs2)).2.1),
            (readNatCnt 0 0 (d :: cs2)).2.2)
        else (none, c :: cs)
    else (none, c :: cs)

/-- The optional exponent of a number: `e` or `E`, an optional sign, and at
least one digit; an incomplete exponent is left unconsumed. -/
def readExpPart : List Char → Option Int × List Char
  | [] => (none, [])
  | c :: cs =>
    if c = 'e' ∨ c = 'E' then
      match cs with
      | [] => (none, c :: cs)
      | d :: cs2 =>
        if isDigitC d then
          (some ((readNatAux 0 (d :: cs2)).1 : Int), (readNatAux 0 (d :: cs2)).2)
        else if d = '+' then
          match cs2 with
          | [] => (none, c :: cs)
          | d2 :: _ =>
            if isDigitC d2 then
              (some ((readNatAux 0 cs2).1 : Int), (readNatAux 0 cs2).2)
            else (none, c :: cs)
        else if d = '-' then
          match cs2 with
          | [] => (none, c :: cs)
          | d2 :: _ =>
            if isDigitC d2 then
              (some (-((readNatAux 0 cs2).1 : Int)), (readNatAux 0 cs2).2)
            else (none, c :: cs)
        else (none, c :: cs)
    else (none, c :: cs)

/-- Negate when the number carried a minus sign. -/
def condNeg (neg : Bool) (i : Int) : Int := if neg then -i else i

/-- Assemble the parsed number: without fraction and exponent it is an int;
with either it is a float, kept as the exact decimal `mant * 10 ^ exp10`
(CPython instead rounds the matched text with `float`, and overflows to an
infinity for huge exponents; no claim observes a float's value). -/
def numAssemble (neg : Bool) (ip : Nat) (f : Option (Nat × Nat))
    (e : Option Int × List Char) : PyValue × List Char :=
  match f, e.1 with
  | none, none => (.pyint (condNeg neg (ip : Int)), e.2)
  | some fp, none =>
      (.pyfloat (condNeg neg ((ip : Int) * 10 ^ fp.2 + (fp.1 : Int))) (-(fp.2 : Int)), e.2)
  | none, some ev => (.pyfloat (condNeg neg (ip : Int)) ev, e.2)
  | some fp, some ev =>
      (.pyfloat (condNeg neg ((ip : Int) * 10 ^ fp.2 + (fp.1 : Int))) (ev - (fp.2 : Int)), e.2)

/-- Read one number starting at a digit (a minus sign, when present, was
consumed by the caller and arrives as `neg`), following the scanner's
number grammar. -/
def readNum (neg : Bool) (cs : List Char) : PyValue × List Char :=
  numAssemble neg (readIntPart cs).1 (readFracPart (readIntPart cs).2).1
    (readExpPart (readFracPart (readIntPart cs).2).2)

/-- Python dict item assignment on an association list: an existing key keeps
its position and gets the new value, a new key goes to the end. -/
def dictPut (d : List (List Char × PyValue)) (k : List Char) (v : PyValue) :
    List (List Char × PyValue) :=
  match d with
  | [] => [(k, v)]
  | (k', v') :: rest => if k' = k then (k', v) :: rest else (k', v') :: dictPut rest k v

/-- Build a dict from parsed members in order, as the decoder's object hook
does: later duplicate keys overwrite earlier ones. -/
def buildDict (ms : List (List Char × PyValue)) : List (List Char × PyValue) :=
  ms.foldl (fun d m => dictPut d m.1 m.2) []

/-- One step of reading a JSON value, with `re` and `rm` reading array
elements and object members at the next fuel level.  Dispatch is on the
first non-whitespace character: the three keywords, a string, an array
(`[` then either `]` or elements), an object (brace then either the closing
brace or members), the `NaN`/`Infinity`/`-Infinity` constants the decoder
accepts by default, or a number (optional minus sign, then the scanner's
number grammar via `readNum`). -/
def readValBody (re : List Char → Option (List PyValue × List Char))
    (rm : List Char → Option (List (List Char × PyValue) × List Char))
    (cs : List Char) : Option (PyValue × List Char) :=
  match skipWs cs with
  | [] => none
  | c :: cs2 =>
    if c = 'n' then
      match cs2 with
      | 'u' :: 'l' :: 'l' :: r => some (.pynull, r)
      | _ => none
    else if c = 't' then
      match cs2 with
      | 'r' :: 'u' :: 'e' :: r => some (.pybool true, r)
      | _ => none
    else if c = 'f' then
      match cs2 with
      | 'a' :: 'l' :: 's' :: 'e' :: r => some (.pybool false, r)
      | _ => none
    else if c = '"' then
      match readStr cs2 with
      | some (s, r) => some (.pystr s, r)
      | none => none
    else if c = '[' then
      match skipWs cs2 with
      | [] => none
      | d :: ds =>
        if d = ']' then some (.pylist [], ds)
        else
          match re (d :: ds) with
          | some (vs, r) => some (.pylist vs, r)
          | none => none
    else if c = '\x7b' then
      match skipWs cs2 with
      | [] => none
      | d :: ds =>
        if d = '\x7d' then some (.pydict [], ds)
        else
          match rm (d :: ds) with
          | some (ms, r) => some (.pydict (buildDict ms), r)
          | none => none
    else if c = 'N' then
      match cs2 with
      | 'a' :: 'N' :: r => some (.pynan, r)
      | _ => none
    else if c = 'I' then
      match cs2 with
      | 'n' :: 'f' :: 'i' :: 'n' :: 'i' :: 't' :: 'y' :: r => some (.pyinf false, r)
      | _ => none
    else if c = '-' then
      match cs2 with
      | [] => none
      | d :: ds =>
        if d = 'I' then
          match ds with
          | 'n' :: 'f' :: 'i' :: 'n' :: 'i' :: 't' :: 'y' :: r => some (.pyinf true, r)
          | _ => none
        else if isDigitC d then some (readNum true (d :: ds))
        else none
    else if isDigitC c then some (readNum false (c :: cs2))
    else none

/-- One step of reading the elements of a non-empty array: a value, then
either `,` and more elements or the closing `]`. -/
def readElemsBody (rv : List Char → Option (PyValue × List Char))
    (re : List Char → Option (List PyValue × List Char))
    (cs : List Char) : Option (List PyValue × List Char) :=
  match rv cs with
  | none => none
  | some (v, r) =>
    match skipWs r with
    | [] => none
    | d :: ds =>
      if d = ',' then
        match re ds with
        | some (vs, r2) => some (v :: vs, r2)
        | none => none
      else if d = ']' then some ([v], ds)
      else none

/-- One step of reading the members of a non-empty object: a string key,
`:`, a value, then either `,` and more members or the closing brace. -/
def readMembsBody (rv : List Char → Option (PyValue × List Char))
    (rm : List Char → Option (List (List Char × PyValue) × List Char))
    (cs : List Char) : Option (List (List Char × PyValue) × List Char) :=
  match skipWs cs with
  | [] => none
  | c :: cs2 =>
    if c = '"' then
      match readStr cs2 with
      | none => none
      | some (k, r1) =>
        match skipWs r1 with
        | [] => none
        | d :: ds =>
          if d = ':' then
            match rv ds with
            | none => none
            | some (v, r3) =>
              match skipWs r3 with
              | [] => none
              | e :: es =>
                if e = ',' then
                  match rm es with
                  | some (ms, r5) => some ((k, v) :: ms, r5)
                  | none => none
                else if e = '\x7d' then some ([(k, v)], es)
                else none
          else none
    else none

mutual
/-- Read one JSON value (`fuel` bounds the nesting the reader will follow;
the callers pass more fuel than any document can need). -/
def readVal : Nat → List Char → Option (PyValue × List Char)
  | 0, _ => none
  | fuel + 1, cs => readValBody (readElems fuel) (readMembs fuel) cs

/-- Read the elements of a non-empty array. -/
def readElems : Nat → List Char → Option (List PyValue × List Char)
  | 0, _ => none
  | fuel + 1, cs => readElemsBody (readVal fuel) (readElems fuel) cs

/-- Read the members of a non-empty object. -/
def readMembs : Nat → List Char → Option (List (List Char × PyValue) × List Char)
  | 0, _ => none
  | fuel + 1, cs => readMembsBody (readVal fuel) (readMembs fuel) cs
end

/-- `json.load` on a whole document: one value, then only trailing whitespace. -/
def jsonLoads (s : String) : Option PyValue :=
  match readVal (s.data.length + 1) s.data with
  | some (v, r) => if skipWs r = [] then some v else none
  | none => none

/-! ### The script `get_calendar_details.py` -/

/-- A filesystem: each path either holds a file with some contents or nothing. -/
def FS : Type := String → Option String

/-- Write (create or truncate-and-overwrite) the file at `p`. -/
def setFile (fs : FS) (p : String) (content : String) : FS :=
  fun q => if q = p then some content else fs q

/-- The scope identifiers of the external library's `Scopes` enumeration
(the script only ever names `Scopes.CALENDAR`). -/
inductive Scope where
  | CALENDAR
  | DRIVE
  | GMAIL
deriving DecidableEq

/-- Modelled from the spec: the external `GoogleOAuthManager` object, which
`google_client.auth` does not ship in this repository.  The spec describes its
constructor as taking a client-secret structure and an optional redirect URI
with default `http://localhost:8080`. -/
structure GoogleOAuthManager where
  client_secrets_dict : PyValue
  redirect_uri : String

/-- Modelled from the spec: the default redirect target the constructor uses
when no redirect URI is supplied — the loopback address on port 8080. -/
def defaultRedirectURI : String := "http://localhost:8080"

/-- Modelled from the spec: the `GoogleOAuthManager` constructor; `none` for
the second argument is a call that does not pass a redirect URI. -/
def mkManager (secrets : PyValue) (redirect : Option String) : GoogleOAuthManager :=
  ⟨secrets, redirect.getD defaultRedirectURI⟩

/-- The behaviour of the external OAuth library during one run: what
`authenticate_via_local_server` returns for a given manager and scope list —
a credential object, or an exception (carrying its message).  Browser
interaction, the local callback server and the network live behind this
function and are opaque to the script. -/
structure OAuthLib where
  authenticate : GoogleOAuthManager → List Scope → Except String PyValue

/-- The ways a run can terminate with an unhandled exception. -/
inductive Fault where
  | fileNotFound
  | jsonDecodeError
  | authError (msg : String)
  | typeError
deriving DecidableEq

/-- The externally observable steps of a run, in order. -/
inductive Event where
  | fileRead (path : String)
  | managerConstructed (secrets : PyValue) (redirect : String)
  | authCalled (mgr : GoogleOAuthManager) (scopes : List Scope)
  | fileWrite (path : String)

/-- Number a step: reading config, constructing the manager, authenticating,
writing the token file. -/
def eventKind : Event → Nat
  | .fileRead _ => 0
  | .managerConstructed _ _ => 1
  | .authCalled _ _ => 2
  | .fileWrite _ => 3

/-- The state after a run: the filesystem, the trace of completed steps, and
whether the process exited normally or with an unhandled fault. -/
structure RunResult where
  fs : FS
  events : List Event
  outcome : Except Fault Unit

/-- The path the client secrets are read from. -/
def credPath : String := "credentials.json"

/-- The path the token is written to. -/
def tokenPath : String := "user_token.json"

/-- One run of `get_calendar_details.py` against initial filesystem `fs0`,
with the external library behaving as `ext`:

* `open('credentials.json', 'r')` then `json.load` — a missing file raises
  `FileNotFoundError`, undecodable contents raise `JSONDecodeError`, and
  either fault ends the process with nothing else done;
* `GoogleOAuthManager(client_secrets_dict=client_secrets)` — no redirect URI
  is passed;
* `oauth_manager.authenticate_via_local_server(scopes=[Scopes.CALENDAR])` —
  an exception from the library ends the process with the filesystem intact;
* `open('user_token.json', 'w')` truncates the token file, then
  `json.dump(user_info, f)` writes the serialization; a non-serializable
  `user_info` leaves behind exactly the prefix emitted before the encoder
  raised `TypeError`. -/
def run (ext : OAuthLib) (fs0 : FS) : RunResult :=
  match fs0 credPath with
  | none => ⟨fs0, [], .error .fileNotFound⟩
  | some text =>
    match jsonLoads text with
    | none => ⟨fs0, [.fileRead credPath], .error .jsonDecodeError⟩
    | some client_secrets =>
      let oauth_manager := mkManager client_secrets none
      match ext.authenticate oauth_manager [Scope.CALENDAR] with
      | .error msg =>
          ⟨fs0,
           [.fileRead credPath,
            .managerConstructed client_secrets oauth_manager.redirect_uri,
            .authCalled oauth_manager [Scope.CALENDAR]],
           .error (.authError msg)⟩
      | .ok user_info =>
          ⟨setFile fs0 tokenPath ⟨(emit user_info).1⟩,
           [.fileRead credPath,
            .managerConstructed client_secrets oauth_manager.redirect_uri,
            .authCalled oauth_manager [Scope.CALENDAR],
            .fileWrite tokenPath],
           if (emit user_info).2 then .ok () else .error .typeError⟩

/-! ### Structural measures and well-formedness of Python values -/

/-- `true` when a number read up to here cannot continue: at end of input
or before a character that extends no number — no digit, no dot, no
exponent letter.  After any complete JSON value in encoder output the
remaining input satisfies this. -/
def stopOk : List Char → Bool
  | [] => true
  | c :: _ => !(isDigitC c || c = '.' || c = 'e' || c = 'E')

/-- Does the association list carry key `k`? -/
def keyHas (ms : List (List Char × PyValue)) (k : List Char) : Bool :=
  ms.any (fun m => decide (m.1 = k))

/-- Pairwise-distinct keys, as every genuine Python dict has. -/
def nodupKeys : List (List Char × PyValue) → Bool
  | [] => true
  | (k, _) :: ms => !(keyHas ms k) && nodupKeys ms

mutual
/-- The JSON-exact fragment of values the round-trip development covers:
no non-serializable object inside, every dict level has distinct keys
(dicts cannot hold a key twice), and no floats — `json.dump` does write
floats, but as IEEE `repr` bytes the exact-decimal model does not
reproduce, so the byte-level theorems stay away from them. -/
def wfV : PyValue → Bool
  | .pynull => true
  | .pybool _ => true
  | .pyint _ => true
  | .pyfloat _ _ => false
  | .pynan => false
  | .pyinf _ => false
  | .pystr _ => true
  | .pylist xs => wfElems xs
  | .pydict ms => nodupKeys ms && wfMembs ms
  | .pyobj _ => false

/-- `wfV` on every element. -/
def wfElems : List PyValue → Bool
  | [] => true
  | x :: xs => wfV x && wfElems xs

/-- `wfV` on every member value. -/
def wfMembs : List (List Char × PyValue) → Bool
  | [] => true
  | (_, v) :: ms => wfV v && wfMembs ms
end

/-! ### Fixtures: concrete library behaviours and filesystems -/

/-- A filesystem holding an empty-object secrets file and nothing else. -/
def fsCred : FS := fun p => if p = credPath then some "\x7b\x7d" else none

/-- A filesystem with no files at all. -/
def fsEmpty : FS := fun _ => none

/-- A small serializable credential object. -/
def vTok : PyValue := .pydict [("token".data, .pystr "abc".data)]

/-- A credential object whose second member value the encoder cannot
serialize. -/
def vBad : PyValue := .pydict [("a".data, .pyint 1), ("b".data, .pyobj "Credentials".data)]

/-- A library that authenticates successfully and returns `vTok`. -/
def libOk : OAuthLib := ⟨fun _ _ => .ok vTok⟩

/-- A library that returns a non-serializable object. -/
def libBad : OAuthLib := ⟨fun _ _ => .ok vBad⟩

/-- A library whose authenticate call raises. -/
def libDenied : OAuthLib := ⟨fun _ _ => .error "access_denied"⟩

/-! ### Character and digit facts -/

theorem toNat_ofNat_valid (n : Nat) (h : n.isValidChar) : (Char.ofNat n).toNat = n := by
  rw [Char.ofNat, dif_pos h]
  rfl

theorem digitChar_toNat (d : Nat) (h : d < 10) : (digitChar d).toNat = 48 + d :=
  toNat_ofNat_valid _ (Or.inl (by omega))

theorem isDigitC_digitChar (d : Nat) (h : d < 10) : isDigitC (digitChar d) = true := by
  simp only [isDigitC, digitChar_toNat d h, Bool.and_eq_true, decide_eq_true_eq]
  omega

theorem digitChar_ne (d : Nat) (h : d < 10) (c : Char)
    (hc : c.toNat < 48 ∨ 57 < c.toNat) : digitChar d ≠ c := by
  intro e
  have h2 := congrArg Char.toNat e
  rw [digitChar_toNat d h] at h2
  omega

theorem natDigitsAux_irrel (f1 : Nat) : ∀ f2 n, n < f1 → n < f2 →
    natDigitsAux f1 n = natDigitsAux f2 n := by
  induction f1 with
  | zero => omega
  | succ g1 ih =>
      intro f2 n h1 h2
      cases f2 with
      | zero => omega
      | succ g2 =>
          rw [natDigitsAux, natDigitsAux]
          by_cases h : n < 10
          · rw [if_pos h, if_pos h]
          · rw [if_neg h, if_neg h,
                ih g2 (n / 10) (by omega) (by omega)]

theorem natDigits_eq (n : Nat) :
    natDigits n = if n < 10 then [digitChar n]
      else natDigits (n / 10) ++ [digitChar (n % 10)] := by
  rw [natDigits, natDigitsAux]
  by_cases h : n < 10
  · rw [if_pos h, if_pos h]
  · rw [if_neg h, if_neg h, natDigits,
        natDigitsAux_irrel n (n / 10 + 1) (n / 10) (by omega) (by omega)]

theorem hexDigit_toNat (d : Nat) (h : d < 16) :
    (hexDigit d).toNat = if d < 10 then 48 + d else 87 + d := by
  by_cases hd : d < 10
  · rw [hexDigit, if_pos hd, if_pos hd]
    exact toNat_ofNat_valid _ (Or.inl (by omega))
  · rw [hexDigit, if_neg hd, if_neg hd]
    exact toNat_ofNat_valid _ (Or.inl (by omega))

theorem hexVal_hexDigit (d : Nat) (h : d < 16) : hexVal (hexDigit d) = some d := by
  have ht := hexDigit_toNat d h
  by_cases hd : d < 10
  · rw [if_pos hd] at ht
    rw [hexVal, ht, if_pos (by omega)]
    congr 1
    omega
  · rw [if_neg hd] at ht
    rw [hexVal, ht, if_neg (by omega), if_pos (by omega)]
    congr 1
    omega

theorem hex4Val_hex4 (n : Nat) (h : n < 0x10000) :
    hex4Val (hexDigit (n / 4096 % 16)) (hexDigit (n / 256 % 16))
      (hexDigit (n / 16 % 16)) (hexDigit (n % 16)) = some n := by
  rw [hex4Val, hexVal_hexDigit _ (Nat.mod_lt _ (by omega)),
      hexVal_hexDigit _ (Nat.mod_lt _ (by omega)),
      hexVal_hexDigit _ (Nat.mod_lt _ (by omega)),
      hexVal_hexDigit _ (Nat.mod_lt _ (by omega))]
  show some _ = some n
  congr 1
  omega

/-! ### String escape round-trip -/

theorem char_valid (c : Char) : c.toNat.isValidChar := c.valid

theorem char_toNat_lt (c : Char) : c.toNat < 0x110000 := by
  rcases char_valid c with h | ⟨_, h⟩ <;> omega

theorem char_not_surrogate (c : Char) : c.toNat < 0xd800 ∨ 0xdfff < c.toNat := by
  rcases char_valid c with h | ⟨h, _⟩
  · exact Or.inl h
  · exact Or.inr h

theorem readOne_uEsc_bmp (c : Char) (z : List Char) (hb : c.toNat < 0x10000) :
    readOne '\\' ('u' :: (hex4 c.toNat ++ z)) = some (c, z) := by
  rw [hex4]
  rw [readOne.eq_def, if_pos rfl]
  show (if ('u' : Char) = 'u' then _ else _) = _
  rw [if_pos rfl]
  show readU _ _ _ _ z = _
  rw [readU.eq_def, hex4Val_hex4 _ hb]
  show (if c.toNat < 0xd800 ∨ 0xdfff < c.toNat then _ else _) = _
  rw [if_pos (char_not_surrogate c), Char.ofNat_toNat]

theorem readOne_uEsc_astral (c : Char) (z : List Char) (hb : ¬(c.toNat < 0x10000)) :
    readOne '\\' ('u' :: (hex4 (0xd800 + (c.toNat - 0x10000) / 0x400)
      ++ ('\\' :: 'u' :: hex4 (0xdc00 + (c.toNat - 0x10000) % 0x400)) ++ z)) = some (c, z) := by
  have hv := char_toNat_lt c
  rw [hex4, hex4]
  simp only [List.cons_append, List.nil_append]
  rw [readOne.eq_def, if_pos rfl]
  show (if ('u' : Char) = 'u' then _ else _) = _
  rw [if_pos rfl]
  show readU _ _ _ _ ('\\' :: 'u' :: _ :: _ :: _ :: _ :: z) = _
  rw [readU.eq_def, hex4Val_hex4 _ (by omega)]
  show (if (0xd800 + (c.toNat - 0x10000) / 0x400 < 0xd800 ∨
      0xdfff < 0xd800 + (c.toNat - 0x10000) / 0x400) then _ else _) = _
  rw [if_neg (by omega), if_pos (by omega)]
  show (if ('\\' : Char) = '\\' ∧ ('u' : Char) = 'u' then _ else _) = _
  rw [if_pos ⟨rfl, rfl⟩, hex4Val_hex4 _ (by omega)]
  show (if 0xdc00 ≤ 0xdc00 + (c.toNat - 0x10000) % 0x400 ∧
      0xdc00 + (c.toNat - 0x10000) % 0x400 ≤ 0xdfff then _ else _) = _
  rw [if_pos (by omega)]
  have harith : 0x10000 + (0xd800 + (c.toNat - 0x10000) / 0x400 - 0xd800) * 0x400
      + (0xdc00 + (c.toNat - 0x10000) % 0x400 - 0xdc00) = c.toNat := by
    omega
  rw [harith, Char.ofNat_toNat]

theorem readOne_escChar (c : Char) (z : List Char) :
    ∃ d ds, escChar c ++ z = d :: ds ∧ d ≠ '"' ∧ readOne d ds = some (c, z) := by
  by_cases h1 : c = '"'
  · subst h1
    exact ⟨'\\', _, rfl, by decide, by simp [readOne, decodeEsc]⟩
  by_cases h2 : c = '\\'
  · subst h2
    exact ⟨'\\', _, rfl, by decide, by simp [readOne, decodeEsc]⟩
  by_cases h3 : c = '\n'
  · subst h3
    exact ⟨'\\', _, rfl, by decide, by simp [readOne, decodeEsc]⟩
  by_cases h4 : c = '\r'
  · subst h4
    exact ⟨'\\', _, rfl, by decide, by simp [readOne, decodeEsc]⟩
  by_cases h5 : c = '\t'
  · subst h5
    exact ⟨'\\', _, rfl, by decide, by simp [readOne, decodeEsc]⟩
  by_cases h6 : c = '\x08'
  · subst h6
    exact ⟨'\\', _, rfl, by decide, by simp [readOne, decodeEsc]⟩
  by_cases h7 : c = '\x0c'
  · subst h7
    exact ⟨'\\', _, rfl, by decide, by simp [readOne, decodeEsc]⟩
  by_cases h8 : c.toNat < 0x20 ∨ 0x7e < c.toNat
  · rw [escChar, if_neg h1, if_neg h2, if_neg h3, if_neg h4, if_neg h5, if_neg h6, if_neg h7,
        if_pos h8]
    by_cases hb : c.toNat < 0x10000
    · rw [uEsc, if_pos hb]
      exact ⟨'\\', _, rfl, by decide, readOne_uEsc_bmp c z hb⟩
    · rw [uEsc, if_neg hb]
      refine ⟨'\\', 'u' :: (hex4 (0xd800 + (c.toNat - 0x10000) / 0x400)
          ++ ('\\' :: 'u' :: hex4 (0xdc00 + (c.toNat - 0x10000) % 0x400)) ++ z), ?_, by decide,
          readOne_uEsc_astral c z hb⟩
      simp only [List.cons_append, List.append_assoc]
  · rw [escChar, if_neg h1, if_neg h2, if_neg h3, if_neg h4, if_neg h5, if_neg h6, if_neg h7,
        if_neg h8]
    refine ⟨c, z, rfl, h1, ?_⟩
    rw [readOne.eq_def, if_neg h2, if_neg (by omega)]

theorem escChar_ne_nil (c : Char) : escChar c ≠ [] := by
  obtain ⟨d, ds, heq, -, -⟩ := readOne_escChar c []
  rw [List.append_nil] at heq
  rw [heq]
  exact List.cons_ne_nil d ds

theorem escBody_length (s : List Char) : s.length < (escBody s).length := by
  induction s with
  | nil => decide
  | cons c cs ih =>
      rw [escBody, List.length_append, List.length_cons]
      have h1 : 0 < (escChar c).length := List.length_pos.mpr (escChar_ne_nil c)
      omega

theorem readStrF_escBody (s : List Char) :
    ∀ fuel z, s.length < fuel → readStrF fuel (escBody s ++ z) = some (s, z) := by
  induction s with
  | nil =>
      intro fuel z h
      cases fuel with
      | zero => omega
      | succ f => simp [escBody, readStrF]
  | cons c cs ih =>
      intro fuel z h
      obtain ⟨d, ds, heq, hdq, hro⟩ := readOne_escChar c (escBody cs ++ z)
      rw [escBody, List.append_assoc, heq]
      cases fuel with
      | zero => omega
      | succ f =>
          rw [readStrF, if_neg hdq, hro]
          show consRes c (readStrF f (escBody cs ++ z)) = _
          rw [ih f z (by simp at h; omega)]
          rfl

theorem readStr_escBody (s z : List Char) : readStr (escBody s ++ z) = some (s, z) := by
  have h1 := escBody_length s
  refine readStrF_escBody s _ z ?_
  rw [List.length_append]
  omega

/-! ### Number round-trip -/

theorem natDigits_cons (n : Nat) : ∃ d t, natDigits n = digitChar d :: t ∧ d < 10 := by
  induction n using Nat.strong_induction_on with
  | _ n ih =>
      by_cases h : n < 10
      · exact ⟨n, [], by rw [natDigits_eq, if_pos h], h⟩
      · obtain ⟨d, t, heq, hd⟩ := ih (n / 10) (Nat.div_lt_self (by omega) (by omega))
        refine ⟨d, t ++ [digitChar (n % 10)], ?_, hd⟩
        rw [natDigits_eq, if_neg h, heq]
        rfl

theorem stopOk_not_digit (c : Char) (t : List Char) (h : stopOk (c :: t) = true) :
    isDigitC c = false ∧ c ≠ '.' ∧ c ≠ 'e' ∧ c ≠ 'E' := by
  rw [stopOk, Bool.not_eq_true', Bool.or_eq_false_iff, Bool.or_eq_false_iff,
      Bool.or_eq_false_iff] at h
  obtain ⟨⟨⟨h1, h2⟩, h3⟩, h4⟩ := h
  rw [decide_eq_false_iff_not] at h2 h3 h4
  exact ⟨h1, h2, h3, h4⟩

theorem readNatAux_stop (m : Nat) (rest : List Char) (h : stopOk rest = true) :
    readNatAux m rest = (m, rest) := by
  cases rest with
  | nil => rfl
  | cons c t =>
      obtain ⟨h1, -, -, -⟩ := stopOk_not_digit c t h
      rw [readNatAux, if_neg (by rw [h1]; exact Bool.false_ne_true)]

theorem readNatAux_natDigits (n : Nat) : ∀ acc rest,
    readNatAux acc (natDigits n ++ rest)
      = readNatAux (acc * 10 ^ (natDigits n).length + n) rest := by
  induction n using Nat.strong_induction_on with
  | _ n ih =>
      intro acc rest
      by_cases h : n < 10
      · rw [natDigits_eq, if_pos h]
        show readNatAux acc (digitChar n :: rest) = _
        rw [readNatAux, if_pos (isDigitC_digitChar n h), digitChar_toNat n h]
        have harith : 10 * acc + (48 + n - 48) = acc * 10 ^ (List.length [digitChar n]) + n := by
          simp [List.length_singleton]
          omega
        rw [harith]
      · have hlt := Nat.div_lt_self (show 0 < n by omega) (show 1 < 10 by omega)
        have hstep : natDigits n = natDigits (n / 10) ++ [digitChar (n % 10)] := by
          rw [natDigits_eq, if_neg h]
        rw [hstep, List.append_assoc, ih (n / 10) hlt acc ([digitChar (n % 10)] ++ rest),
            List.singleton_append, readNatAux, if_pos (isDigitC_digitChar _ (Nat.mod_lt _ (by omega))),
            digitChar_toNat _ (Nat.mod_lt _ (by omega))]
        have hlen : (natDigits (n / 10) ++ [digitChar (n % 10)]).length
            = (natDigits (n / 10)).length + 1 := by
          rw [List.length_append, List.length_singleton]
        rw [hlen]
        have harith : 10 * (acc * 10 ^ (natDigits (n / 10)).length + n / 10) + (48 + n % 10 - 48)
            = acc * 10 ^ ((natDigits (n / 10)).length + 1) + n := by
          rw [pow_succ, ← Nat.mul_assoc]
          generalize acc * 10 ^ (natDigits (n / 10)).length = x
          omega
        rw [harith]

theorem readNatAux_digits (n : Nat) (rest : List Char) (h : stopOk rest = true) :
    readNatAux 0 (natDigits n ++ rest) = (n, rest) := by
  rw [readNatAux_natDigits n 0 rest, Nat.zero_mul, Nat.zero_add, readNatAux_stop n rest h]

theorem natDigits_head_pos (n : Nat) :
    1 ≤ n → ∃ d t, natDigits n = digitChar d :: t ∧ d < 10 ∧ 1 ≤ d := by
  induction n using Nat.strong_induction_on with
  | _ n ih =>
      intro hn
      by_cases h : n < 10
      · exact ⟨n, [], by rw [natDigits_eq, if_pos h], h, hn⟩
      · obtain ⟨d, t, heq, hd, hd1⟩ :=
          ih (n / 10) (Nat.div_lt_self (by omega) (by omega)) (by omega)
        refine ⟨d, t ++ [digitChar (n % 10)], ?_, hd, hd1⟩
        rw [natDigits_eq, if_neg h, heq]
        rfl

theorem digitChar_ne_zero (d : Nat) (hd : d < 10) (h1 : 1 ≤ d) : digitChar d ≠ '0' := by
  intro e
  have h2 := congrArg Char.toNat e
  rw [digitChar_toNat d hd] at h2
  have h3 : ('0' : Char).toNat = 48 := rfl
  omega

theorem readIntPart_natDigits (n : Nat) (rest : List Char) (h : stopOk rest = true) :
    readIntPart (natDigits n ++ rest) = (n, rest) := by
  by_cases hn : n = 0
  · subst hn
    show readIntPart ('0' :: rest) = (0, rest)
    rw [readIntPart, if_pos rfl]
  · obtain ⟨d, t, heq, hd, hd1⟩ := natDigits_head_pos n (by omega)
    rw [heq, List.cons_append, readIntPart, if_neg (digitChar_ne_zero d hd hd1),
        ← List.cons_append, ← heq, readNatAux_digits n rest h]

theorem readFracPart_stop (cs : List Char) (h : stopOk cs = true) :
    readFracPart cs = (none, cs) := by
  cases cs with
  | nil => rfl
  | cons c t =>
      obtain ⟨-, h2, -, -⟩ := stopOk_not_digit c t h
      rw [readFracPart.eq_def]
      simp only [if_neg h2]

theorem readExpPart_stop (cs : List Char) (h : stopOk cs = true) :
    readExpPart cs = (none, cs) := by
  cases cs with
  | nil => rfl
  | cons c t =>
      obtain ⟨-, -, h3, h4⟩ := stopOk_not_digit c t h
      rw [readExpPart.eq_def]
      simp only [if_neg (not_or.mpr ⟨h3, h4⟩)]

theorem readNum_natDigits (neg : Bool) (n : Nat) (rest : List Char) (h : stopOk rest = true) :
    readNum neg (natDigits n ++ rest) = (.pyint (condNeg neg (n : Int)), rest) := by
  rw [readNum, readIntPart_natDigits n rest h, readFracPart_stop rest h,
      readExpPart_stop rest h]
  rfl

/-! ### Heads of encoder output, whitespace, and serializability -/

theorem digitChar_props (d : Nat) (h : d < 10) :
    isWs (digitChar d) = false ∧ isDigitC (digitChar d) = true ∧
    digitChar d ≠ 'n' ∧ digitChar d ≠ 't' ∧ digitChar d ≠ 'f' ∧ digitChar d ≠ '"' ∧
    digitChar d ≠ '[' ∧ digitChar d ≠ '\x7b' ∧ digitChar d ≠ '-' ∧
    digitChar d ≠ ']' ∧ digitChar d ≠ '\x7d' := by
  refine ⟨?_, isDigitC_digitChar d h, ?_, ?_, ?_, ?_, ?_, ?_, ?_, ?_, ?_⟩
  · simp only [isWs, Bool.or_eq_false_iff, decide_eq_false_iff_not]
    exact ⟨⟨⟨digitChar_ne d h _ (by decide), digitChar_ne d h _ (by decide)⟩,
      digitChar_ne d h _ (by decide)⟩, digitChar_ne d h _ (by decide)⟩
  all_goals exact digitChar_ne d h _ (by decide)

theorem skipWs_cons_not (c : Char) (cs : List Char) (h : isWs c = false) :
    skipWs (c :: cs) = c :: cs := by
  rw [skipWs, if_neg (by rw [h]; exact Bool.false_ne_true)]

theorem skipWs_space (cs : List Char) : skipWs (' ' :: cs) = skipWs cs := by
  rw [skipWs, if_pos (by decide)]

theorem readVal_space (fuel : Nat) (cs : List Char) :
    readVal fuel (' ' :: cs) = readVal fuel cs := by
  cases fuel with
  | zero => rfl
  | succ f =>
      rw [readVal, readVal, readValBody.eq_def, readValBody.eq_def, skipWs_space]

theorem readElems_space (fuel : Nat) (cs : List Char) :
    readElems fuel (' ' :: cs) = readElems fuel cs := by
  cases fuel with
  | zero => rfl
  | succ f =>
      rw [readElems, readElems, readElemsBody.eq_def, readElemsBody.eq_def, readVal_space]

theorem readMembs_space (fuel : Nat) (cs : List Char) :
    readMembs fuel (' ' :: cs) = readMembs fuel cs := by
  cases fuel with
  | zero => rfl
  | succ f =>
      rw [readMembs, readMembs, readMembsBody.eq_def, readMembsBody.eq_def, skipWs_space]
mutual
theorem emit_ok_v : ∀ v : PyValue, wfV v = true → (emit v).2 = true
  | .pynull, _ => rfl
  | .pybool true, _ => rfl
  | .pybool false, _ => rfl
  | .pyint _, _ => rfl
  | .pyfloat _ _, h => by rw [wfV] at h; exact absurd h (by decide)
  | .pynan, h => by rw [wfV] at h; exact absurd h (by decide)
  | .pyinf _, h => by rw [wfV] at h; exact absurd h (by decide)
  | .pystr _, _ => rfl
  | .pylist [], _ => rfl
  | .pylist (x :: xs), h => by
      rw [wfV, wfElems, Bool.and_eq_true] at h
      rw [emit, if_pos (emit_ok_v x h.1)]
      exact emit_ok_elems xs h.2
  | .pydict [], _ => rfl
  | .pydict ((k, v) :: ms), h => by
      rw [wfV, Bool.and_eq_true, wfMembs, Bool.and_eq_true] at h
      rw [emit, if_pos (emit_ok_v v h.2.1)]
      exact emit_ok_membs ms h.2.2
  | .pyobj _, h => by
      rw [wfV] at h
      exact absurd h (by decide)

theorem emit_ok_elems : ∀ xs : List PyValue, wfElems xs = true → (emitElems xs).2 = true
  | [], _ => rfl
  | x :: xs, h => by
      rw [wfElems, Bool.and_eq_true] at h
      rw [emitElems, if_pos (emit_ok_v x h.1)]
      exact emit_ok_elems xs h.2

theorem emit_ok_membs :
    ∀ ms : List (List Char × PyValue), wfMembs ms = true → (emitMembs ms).2 = true
  | [], _ => rfl
  | (k, v) :: ms, h => by
      rw [wfMembs, Bool.and_eq_true] at h
      rw [emitMembs, if_pos (emit_ok_v v h.1)]
      exact emit_ok_membs ms h.2
end
theorem emit_head (v : PyValue) (h : wfV v = true) :
    ∃ c t, (emit v).1 = c :: t ∧ isWs c = false ∧ c ≠ ']' ∧ c ≠ '\x7d' := by
  cases v with
  | pynull => exact ⟨'n', _, rfl, by decide, by decide, by decide⟩
  | pybool b =>
      cases b
      · exact ⟨'f', ['a', 'l', 's', 'e'], rfl, rfl, by decide, by decide⟩
      · exact ⟨'t', ['r', 'u', 'e'], rfl, rfl, by decide, by decide⟩
  | pyint i =>
      by_cases hi : i < 0
      · refine ⟨'-', natDigits i.natAbs, ?_, by decide, by decide, by decide⟩
        show intChars i = _
        rw [intChars, if_pos hi]
      · obtain ⟨d, t, heq, hd⟩ := natDigits_cons i.toNat
        obtain ⟨hws, -, -, -, -, -, -, -, -, hrb, hcb⟩ := digitChar_props d hd
        refine ⟨digitChar d, t, ?_, hws, hrb, hcb⟩
        show intChars i = _
        rw [intChars, if_neg hi, heq]
  | pystr s => exact ⟨'"', _, rfl, by decide, by decide, by decide⟩
  | pylist xs =>
      cases xs with
      | nil => exact ⟨'[', _, rfl, by decide, by decide, by decide⟩
      | cons x xs =>
          rw [wfV, wfElems, Bool.and_eq_true] at h
          refine ⟨'[', (emit x).1 ++ (emitElems xs).1, ?_, by decide, by decide, by decide⟩
          rw [emit, if_pos (emit_ok_v x h.1)]
  | pydict ms =>
      cases ms with
      | nil => exact ⟨'\x7b', _, rfl, by decide, by decide, by decide⟩
      | cons m ms =>
          obtain ⟨k, v⟩ := m
          rw [wfV, Bool.and_eq_true, wfMembs, Bool.and_eq_true] at h
          refine ⟨'\x7b', escString k ++ ':' :: ' ' :: ((emit v).1 ++ (emitMembs ms).1), ?_,
            by decide, by decide, by decide⟩
          rw [emit, if_pos (emit_ok_v v h.2.1)]
  | pyfloat m e =>
      rw [wfV] at h
      exact absurd h (by decide)
  | pynan =>
      rw [wfV] at h
      exact absurd h (by decide)
  | pyinf b =>
      rw [wfV] at h
      exact absurd h (by decide)
  | pyobj name =>
      rw [wfV] at h
      exact absurd h (by decide)

/-! ### Rebuilding a dict from parsed members -/

theorem keyHas_eq_false (ms : List (List Char × PyValue)) (k : List Char) :
    keyHas ms k = false ↔ ∀ m ∈ ms, m.1 ≠ k := by
  simp [keyHas, List.any_eq_false]

theorem dictPut_notMem (d : List (List Char × PyValue)) (k : List Char) (v : PyValue)
    (h : keyHas d k = false) : dictPut d k v = d ++ [(k, v)] := by
  induction d with
  | nil => rfl
  | cons m rest ih =>
      obtain ⟨k', v'⟩ := m
      rw [keyHas_eq_false] at h
      rw [dictPut, if_neg (h (k', v') (List.mem_cons_self _ _)), List.cons_append]
      rw [ih ((keyHas_eq_false rest k).mpr (fun m hm => h m (List.mem_cons_of_mem _ hm)))]

theorem buildDict_go (ms : List (List Char × PyValue)) :
    ∀ acc, nodupKeys ms = true → (∀ m ∈ ms, keyHas acc m.1 = false) →
      List.foldl (fun d m => dictPut d m.1 m.2) acc ms = acc ++ ms := by
  induction ms with
  | nil =>
      intro acc _ _
      rw [List.foldl_nil, List.append_nil]
  | cons m ms ih =>
      intro acc hnd hacc
      obtain ⟨k, v⟩ := m
      rw [nodupKeys, Bool.and_eq_true, Bool.not_eq_true'] at hnd
      rw [List.foldl_cons]
      show List.foldl _ (dictPut acc k v) ms = _
      rw [dictPut_notMem acc k v (hacc (k, v) (List.mem_cons_self _ _))]
      rw [ih (acc ++ [(k, v)]) hnd.2 ?_]
      · rw [List.append_assoc, List.singleton_append]
      · intro m hm
        rw [keyHas_eq_false]
        intro m' hm'
        rcases List.mem_append.mp hm' with hL | hR
        · exact (keyHas_eq_false acc m.1).mp (hacc m (List.mem_cons_of_mem _ hm)) m' hL
        · rw [List.mem_singleton] at hR
          subst hR
          exact fun e => ((keyHas_eq_false ms k).mp hnd.1 m hm) (e.symm)

theorem buildDict_nodup (ms : List (List Char × PyValue)) (h : nodupKeys ms = true) :
    buildDict ms = ms := by
  rw [buildDict, buildDict_go ms [] h (fun m _ => rfl), List.nil_append]
section
variable (re : List Char → Option (List PyValue × List Char))
variable (rm : List Char → Option (List (List Char × PyValue) × List Char))

theorem rvb_null (rest : List Char) :
    readValBody re rm ('n' :: 'u' :: 'l' :: 'l' :: rest) = some (.pynull, rest) := by
  rw [readValBody.eq_def, skipWs_cons_not _ _ (by decide)]
  rfl

theorem rvb_true (rest : List Char) :
    readValBody re rm ('t' :: 'r' :: 'u' :: 'e' :: rest) = some (.pybool true, rest) := by
  rw [readValBody.eq_def, skipWs_cons_not _ _ (by decide)]
  rfl

theorem rvb_false (rest : List Char) :
    readValBody re rm ('f' :: 'a' :: 'l' :: 's' :: 'e' :: rest) = some (.pybool false, rest) := by
  rw [readValBody.eq_def, skipWs_cons_not _ _ (by decide)]
  rfl

theorem rvb_str (s rest : List Char) :
    readValBody re rm ('"' :: (escBody s ++ rest)) = some (.pystr s, rest) := by
  rw [readValBody.eq_def, skipWs_cons_not _ _ (by decide)]
  show (match readStr (escBody s ++ rest) with
        | some (s, r) => some (PyValue.pystr s, r)
        | none => none) = _
  rw [readStr_escBody]

theorem rvb_arr_nil (rest : List Char) :
    readValBody re rm ('[' :: ']' :: rest) = some (.pylist [], rest) := by
  rw [readValBody.eq_def, skipWs_cons_not _ _ (by decide)]
  rfl

theorem rvb_arr (x : PyValue) (xs : List PyValue) (rest : List Char) (hwx : wfV x = true) :
    readValBody re rm ('[' :: ((emit x).1 ++ ((emitElems xs).1 ++ rest)))
      = (match re ((emit x).1 ++ ((emitElems xs).1 ++ rest)) with
         | some (vs, r) => some (.pylist vs, r)
         | none => none) := by
  obtain ⟨c0, t0, heq, hws, hrb, -⟩ := emit_head x hwx
  rw [readValBody.eq_def, skipWs_cons_not _ _ (by decide)]
  show (match skipWs ((emit x).1 ++ ((emitElems xs).1 ++ rest)) with
        | [] => none
        | d :: ds =>
          if d = ']' then some (PyValue.pylist [], ds)
          else
            match re (d :: ds) with
            | some (vs, r) => some (PyValue.pylist vs, r)
            | none => none) = _
  rw [heq, List.cons_append, skipWs_cons_not _ _ hws]
  show (if c0 = ']' then some (PyValue.pylist [], t0 ++ ((emitElems xs).1 ++ rest))
        else
          match re (c0 :: (t0 ++ ((emitElems xs).1 ++ rest))) with
          | some (vs, r) => some (PyValue.pylist vs, r)
          | none => none) = _
  rw [if_neg hrb]

theorem rvb_dict_nil (rest : List Char) :
    readValBody re rm ('\x7b' :: '\x7d' :: rest) = some (.pydict [], rest) := by
  rw [readValBody.eq_def, skipWs_cons_not _ _ (by decide)]
  rfl

theorem rvb_dict (k : List Char) (tail : List Char) :
    readValBody re rm ('\x7b' :: (escString k ++ tail))
      = (match rm (escString k ++ tail) with
         | some (ms, r) => some (.pydict (buildDict ms), r)
         | none => none) := by
  rw [readValBody.eq_def, skipWs_cons_not _ _ (by decide)]
  show (match skipWs (escString k ++ tail) with
        | [] => none
        | d :: ds =>
          if d = '\x7d' then some (PyValue.pydict [], ds)
          else
            match rm (d :: ds) with
            | some (ms, r) => some (PyValue.pydict (buildDict ms), r)
            | none => none) = _
  rw [escString, List.cons_append, skipWs_cons_not _ _ (by decide)]
  show (if ('"' : Char) = '\x7d' then _
        else
          match rm ('"' :: (escBody k ++ tail)) with
          | some (ms, r) => some (PyValue.pydict (buildDict ms), r)
          | none => none) = _
  rw [if_neg (by decide)]

theorem rvb_int_nonneg (n : Nat) (rest : List Char) (hstop : stopOk rest = true) :
    readValBody re rm (natDigits n ++ rest) = some (.pyint (n : Int), rest) := by
  obtain ⟨d, t, heq, hd⟩ := natDigits_cons n
  obtain ⟨hws, hdig, hn, ht, hf, hq, hlb, hob, hmn, -, -⟩ := digitChar_props d hd
  rw [readValBody.eq_def, heq, List.cons_append, skipWs_cons_not _ _ hws]
  show (if digitChar d = 'n' then _
        else if digitChar d = 't' then _
        else if digitChar d = 'f' then _
        else if digitChar d = '"' then _
        else if digitChar d = '[' then _
        else if digitChar d = '\x7b' then _
        else if digitChar d = 'N' then _
        else if digitChar d = 'I' then _
        else if digitChar d = '-' then _
        else if isDigitC (digitChar d) = true then
          some (readNum false (digitChar d :: (t ++ rest)))
        else none) = _
  rw [if_neg hn, if_neg ht, if_neg hf, if_neg hq, if_neg hlb, if_neg hob,
      if_neg (digitChar_ne d hd 'N' (by decide)), if_neg (digitChar_ne d hd 'I' (by decide)),
      if_neg hmn, if_pos hdig, ← List.cons_append, ← heq,
      readNum_natDigits false n rest hstop]
  rfl

theorem rvb_int_neg (n : Nat) (rest : List Char) (hstop : stopOk rest = true) :
    readValBody re rm ('-' :: (natDigits n ++ rest)) = some (.pyint (-(n : Int)), rest) := by
  obtain ⟨d, t, heq, hd⟩ := natDigits_cons n
  obtain ⟨-, hdig, -, -, -, -, -, -, -, -, -⟩ := digitChar_props d hd
  rw [readValBody.eq_def, skipWs_cons_not _ _ (by decide)]
  show (match natDigits n ++ rest with
        | [] => none
        | d :: ds =>
          if d = 'I' then
            match ds with
            | 'n' :: 'f' :: 'i' :: 'n' :: 'i' :: 't' :: 'y' :: r => some (PyValue.pyinf true, r)
            | _ => none
          else if isDigitC d then some (readNum true (d :: ds))
          else none) = _
  rw [heq, List.cons_append]
  show (if digitChar d = 'I' then _
        else if isDigitC (digitChar d) = true then
          some (readNum true (digitChar d :: (t ++ rest)))
        else none) = _
  rw [if_neg (digitChar_ne d hd 'I' (by decide)), if_pos hdig, ← List.cons_append, ← heq,
      readNum_natDigits true n rest hstop]
  rfl

end

/-! ### Encoder output shapes under well-formedness -/

theorem emit_pylist_cons (x : PyValue) (xs : List PyValue) (h : (emit x).2 = true) :
    emit (.pylist (x :: xs))
      = ('[' :: ((emit x).1 ++ (emitElems xs).1), (emitElems xs).2) := by
  rw [emit, if_pos h]

theorem emitElems_cons (x : PyValue) (xs : List PyValue) (h : (emit x).2 = true) :
    emitElems (x :: xs)
      = (',' :: ' ' :: ((emit x).1 ++ (emitElems xs).1), (emitElems xs).2) := by
  rw [emitElems, if_pos h]

theorem emit_pydict_cons (k : List Char) (v : PyValue) (ms : List (List Char × PyValue))
    (h : (emit v).2 = true) :
    emit (.pydict ((k, v) :: ms))
      = ('\x7b' :: (escString k ++ ':' :: ' ' :: ((emit v).1 ++ (emitMembs ms).1)),
         (emitMembs ms).2) := by
  rw [emit, if_pos h]

theorem emitMembs_cons (k : List Char) (v : PyValue) (ms : List (List Char × PyValue))
    (h : (emit v).2 = true) :
    emitMembs ((k, v) :: ms)
      = (',' :: ' ' :: (escString k ++ ':' :: ' ' :: ((emit v).1 ++ (emitMembs ms).1)),
         (emitMembs ms).2) := by
  rw [emitMembs, if_pos h]

theorem emit_len_pos (v : PyValue) (h : wfV v = true) : 0 < (emit v).1.length := by
  obtain ⟨c, t, heq, -, -, -⟩ := emit_head v h
  rw [heq]
  exact Nat.succ_pos _

theorem emitElems_len_pos (xs : List PyValue) : 0 < (emitElems xs).1.length := by
  cases xs with
  | nil => decide
  | cons x xs =>
      by_cases h : (emit x).2 = true
      · rw [emitElems, if_pos h]
        exact Nat.succ_pos _
      · rw [emitElems, if_neg h]
        exact Nat.succ_pos _

theorem emitMembs_len_pos (ms : List (List Char × PyValue)) : 0 < (emitMembs ms).1.length := by
  cases ms with
  | nil => decide
  | cons m ms =>
      obtain ⟨k, v⟩ := m
      by_cases h : (emit v).2 = true
      · rw [emitMembs, if_pos h]
        exact Nat.succ_pos _
      · rw [emitMembs, if_neg h]
        exact Nat.succ_pos _

theorem stopOk_emitElems (xs : List PyValue) (rest : List Char) :
    stopOk ((emitElems xs).1 ++ rest) = true := by
  cases xs with
  | nil => rfl
  | cons x xs =>
      by_cases h : (emit x).2 = true
      · rw [emitElems, if_pos h]
        rfl
      · rw [emitElems, if_neg h]
        rfl

theorem stopOk_emitMembs (ms : List (List Char × PyValue)) (rest : List Char) :
    stopOk ((emitMembs ms).1 ++ rest) = true := by
  cases ms with
  | nil => rfl
  | cons m ms =>
      obtain ⟨k, v⟩ := m
      by_cases h : (emit v).2 = true
      · rw [emitMembs, if_pos h]
        rfl
      · rw [emitMembs, if_neg h]
        rfl

theorem escString_len_pos (k : List Char) : 0 < (escString k).length := by
  rw [escString]
  exact Nat.succ_pos _

theorem rmb_step (rv : List Char → Option (PyValue × List Char))
    (rm2 : List Char → Option (List (List Char × PyValue) × List Char))
    (k tail : List Char) :
    readMembsBody rv rm2 (escString k ++ tail)
      = (match skipWs tail with
         | [] => none
         | d :: ds =>
           if d = ':' then
             match rv ds with
             | none => none
             | some (v, r3) =>
               match skipWs r3 with
               | [] => none
               | e :: es =>
                 if e = ',' then
                   match rm2 es with
                   | some (ms, r5) => some ((k, v) :: ms, r5)
                   | none => none
                 else if e = '\x7d' then some ([(k, v)], es)
                 else none
           else none) := by
  rw [escString, List.cons_append, readMembsBody.eq_def, skipWs_cons_not _ _ (by decide)]
  show (match readStr (escBody k ++ tail) with
        | none => none
        | some (k, r1) =>
          match skipWs r1 with
          | [] => none
          | d :: ds =>
            if d = ':' then
              match rv ds with
              | none => none
              | some (v, r3) =>
                match skipWs r3 with
                | [] => none
                | e :: es =>
                  if e = ',' then
                    match rm2 es with
                    | some (ms, r5) => some ((k, v) :: ms, r5)
                    | none => none
                  else if e = '\x7d' then some ([(k, v)], es)
                  else none
            else none) = _
  rw [readStr_escBody]

/-! ### The decoder inverts the encoder -/

mutual
theorem rt_val : ∀ (v : PyValue) (fuel : Nat) (rest : List Char),
    wfV v = true → (emit v).1.length < fuel → stopOk rest = true →
    readVal fuel ((emit v).1 ++ rest) = some (v, rest)
  | .pynull, fuel, rest, _, hf, _ => by
      cases fuel with
      | zero => omega
      | succ f =>
          rw [readVal]
          exact rvb_null _ _ rest
  | .pybool true, fuel, rest, _, hf, _ => by
      cases fuel with
      | zero => omega
      | succ f =>
          rw [readVal]
          exact rvb_true _ _ rest
  | .pybool false, fuel, rest, _, hf, _ => by
      cases fuel with
      | zero => omega
      | succ f =>
          rw [readVal]
          exact rvb_false _ _ rest
  | .pyint i, fuel, rest, _, hf, hstop => by
      cases fuel with
      | zero => omega
      | succ f =>
          rw [readVal]
          by_cases hi : i < 0
          · show readValBody _ _ (intChars i ++ rest) = _
            rw [intChars, if_pos hi, List.cons_append,
                rvb_int_neg (readElems f) (readMembs f) i.natAbs rest hstop,
                show (-(i.natAbs : Int)) = i from by omega]
          · show readValBody _ _ (intChars i ++ rest) = _
            rw [intChars, if_neg hi,
                rvb_int_nonneg (readElems f) (readMembs f) i.toNat rest hstop,
                show ((i.toNat : Int)) = i from by omega]
  | .pystr s, fuel, rest, _, hf, _ => by
      cases fuel with
      | zero => omega
      | succ f =>
          rw [readVal]
          show readValBody _ _ (('"' :: escBody s) ++ rest) = _
          rw [List.cons_append]
          exact rvb_str _ _ s rest
  | .pylist [], fuel, rest, _, hf, _ => by
      cases fuel with
      | zero => omega
      | succ f =>
          rw [readVal]
          exact rvb_arr_nil _ _ rest
  | .pylist (x :: xs), fuel, rest, h, hf, _ => by
      rw [wfV, wfElems, Bool.and_eq_true] at h
      have hox := emit_ok_v x h.1
      rw [emit_pylist_cons x xs hox] at hf ⊢
      cases fuel with
      | zero => omega
      | succ f =>
          rw [readVal, List.cons_append, List.append_assoc,
              rvb_arr (readElems f) (readMembs f) x xs rest h.1]
          have hlen : (emit x).1.length + (emitElems xs).1.length < f := by
            rw [List.length_cons, List.length_append] at hf
            omega
          rw [rt_elems x xs f rest h.1 h.2 hlen]
  | .pydict [], fuel, rest, _, hf, _ => by
      cases fuel with
      | zero => omega
      | succ f =>
          rw [readVal]
          exact rvb_dict_nil _ _ rest
  | .pydict ((k, v) :: ms), fuel, rest, h, hf, _ => by
      rw [wfV, Bool.and_eq_true, wfMembs, Bool.and_eq_true] at h
      have hov := emit_ok_v v h.2.1
      rw [emit_pydict_cons k v ms hov] at hf ⊢
      cases fuel with
      | zero => omega
      | succ f =>
          rw [readVal]
          simp only [List.cons_append, List.append_assoc]
          rw [rvb_dict (readElems f) (readMembs f) k
              (':' :: ' ' :: ((emit v).1 ++ ((emitMembs ms).1 ++ rest)))]
          have hlen : (escString k).length + (emit v).1.length + (emitMembs ms).1.length < f := by
            rw [List.length_cons, List.length_append, List.length_cons, List.length_cons,
                List.length_append] at hf
            omega
          rw [rt_membs k v ms f rest h.2.1 h.2.2 hlen]
          show some (PyValue.pydict (buildDict ((k, v) :: ms)), rest) = _
          rw [buildDict_nodup _ h.1]
  | .pyobj name, fuel, rest, h, _, _ => by
      rw [wfV] at h
      exact absurd h (by decide)
termination_by v _ _ _ _ _ => sizeOf v

theorem rt_elems : ∀ (x : PyValue) (xs : List PyValue) (fuel : Nat) (rest : List Char),
    wfV x = true → wfElems xs = true →
    (emit x).1.length + (emitElems xs).1.length < fuel →
    readElems fuel ((emit x).1 ++ ((emitElems xs).1 ++ rest)) = some (x :: xs, rest)
  | x, [], fuel, rest, hx, _, hsum => by
      cases fuel with
      | zero => omega
      | succ g =>
          have hlen1 : (emitElems ([] : List PyValue)).1.length = 1 := rfl
          have hrv := rt_val x g (']' :: rest) hx (by omega) rfl
          rw [readElems]
          show readElemsBody _ _ ((emit x).1 ++ (']' :: rest)) = _
          rw [readElemsBody.eq_def, hrv]
          show (match skipWs (']' :: rest) with
                | [] => none
                | d :: ds =>
                  if d = ',' then
                    match readElems g ds with
                    | some (vs, r2) => some (x :: vs, r2)
                    | none => none
                  else if d = ']' then some ([x], ds)
                  else none) = _
          rw [skipWs_cons_not _ _ (by decide)]
          rfl
  | x, y :: ys, fuel, rest, hx, hxs, hsum => by
      rw [wfElems, Bool.and_eq_true] at hxs
      have hoy := emit_ok_v y hxs.1
      rw [emitElems_cons y ys hoy] at hsum ⊢
      cases fuel with
      | zero => omega
      | succ g =>
          rw [List.length_cons, List.length_cons, List.length_append] at hsum
          simp only [List.cons_append, List.append_assoc]
          have hrv := rt_val x g (',' :: ' ' :: ((emit y).1 ++ ((emitElems ys).1 ++ rest))) hx
            (by omega) rfl
          rw [readElems, readElemsBody.eq_def, hrv]
          show (match skipWs (',' :: ' ' :: ((emit y).1 ++ ((emitElems ys).1 ++ rest))) with
                | [] => none
                | d :: ds =>
                  if d = ',' then
                    match readElems g ds with
                    | some (vs, r2) => some (x :: vs, r2)
                    | none => none
                  else if d = ']' then some ([x], ds)
                  else none) = _
          rw [skipWs_cons_not _ _ (by decide)]
          show (match readElems g (' ' :: ((emit y).1 ++ ((emitElems ys).1 ++ rest))) with
                | some (vs, r2) => some (x :: vs, r2)
                | none => none) = _
          rw [readElems_space, rt_elems y ys g rest hxs.1 hxs.2 (by omega)]
termination_by x xs _ _ _ _ _ => sizeOf x + sizeOf xs

theorem rt_membs : ∀ (k : List Char) (v : PyValue) (ms : List (List Char × PyValue))
    (fuel : Nat) (rest : List Char),
    wfV v = true → wfMembs ms = true →
    (escString k).length + (emit v).1.length + (emitMembs ms).1.length < fuel →
    readMembs fuel (escString k ++ (':' :: ' ' :: ((emit v).1 ++ ((emitMembs ms).1 ++ rest))))
      = some ((k, v) :: ms, rest)
  | k, v, [], fuel, rest, hv, _, hsum => by
      cases fuel with
      | zero => omega
      | succ g =>
          have hesc := escString_len_pos k
          have hlen1 : (emitMembs ([] : List (List Char × PyValue))).1.length = 1 := rfl
          have hrv := rt_val v g ('\x7d' :: rest) hv (by omega) rfl
          rw [readMembs, rmb_step, skipWs_cons_not _ _ (by decide)]
          show (match readVal g (' ' :: ((emit v).1 ++ ('\x7d' :: rest))) with
                | none => none
                | some (v1, r3) =>
                  match skipWs r3 with
                  | [] => none
                  | e :: es =>
                    if e = ',' then
                      match readMembs g es with
                      | some (ms, r5) => some ((k, v1) :: ms, r5)
                      | none => none
                    else if e = '\x7d' then some ([(k, v1)], es)
                    else none) = _
          rw [readVal_space, hrv]
          show (match skipWs ('\x7d' :: rest) with
                | [] => none
                | e :: es =>
                  if e = ',' then
                    match readMembs g es with
                    | some (ms, r5) => some ((k, v) :: ms, r5)
                    | none => none
                  else if e = '\x7d' then some ([(k, v)], es)
                  else none) = _
          rw [skipWs_cons_not _ _ (by decide)]
          rfl
  | k, v, (k2, v2) :: ms2, fuel, rest, hv, hms, hsum => by
      rw [wfMembs, Bool.and_eq_true] at hms
      have hov2 := emit_ok_v v2 hms.1
      rw [emitMembs_cons k2 v2 ms2 hov2] at hsum ⊢
      cases fuel with
      | zero => omega
      | succ g =>
          rw [List.length_cons, List.length_cons, List.length_append, List.length_cons,
              List.length_cons, List.length_append] at hsum
          have hesc := escString_len_pos k
          have hesc2 := escString_len_pos k2
          simp only [List.cons_append, List.append_assoc]
          have hrv := rt_val v g (',' :: ' ' :: (escString k2 ++ (':' :: ' ' ::
              ((emit v2).1 ++ ((emitMembs ms2).1 ++ rest))))) hv (by omega) rfl
          rw [readMembs, rmb_step, skipWs_cons_not _ _ (by decide)]
          show (match readVal g (' ' :: ((emit v).1 ++ (',' :: ' ' :: (escString k2 ++
                  (':' :: ' ' :: ((emit v2).1 ++ ((emitMembs ms2).1 ++ rest))))))) with
                | none => none
                | some (v1, r3) =>
                  match skipWs r3 with
                  | [] => none
                  | e :: es =>
                    if e = ',' then
                      match readMembs g es with
                      | some (ms, r5) => some ((k, v1) :: ms, r5)
                      | none => none
                    else if e = '\x7d' then some ([(k, v1)], es)
                    else none) = _
          rw [readVal_space, hrv]
          show (match skipWs (',' :: ' ' :: (escString k2 ++ (':' :: ' ' ::
                  ((emit v2).1 ++ ((emitMembs ms2).1 ++ rest))))) with
                | [] => none
                | e :: es =>
                  if e = ',' then
                    match readMembs g es with
                    | some (ms, r5) => some ((k, v) :: ms, r5)
                    | none => none
                  else if e = '\x7d' then some ([(k, v)], es)
                  else none) = _
          rw [skipWs_cons_not _ _ (by decide)]
          show (match readMembs g (' ' :: (escString k2 ++ (':' :: ' ' ::
                  ((emit v2).1 ++ ((emitMembs ms2).1 ++ rest))))) with
                | some (ms, r5) => some ((k, v) :: ms, r5)
                | none => none) = _
          rw [readMembs_space, rt_membs k2 v2 ms2 g rest hms.1 hms.2 (by omega)]
termination_by _ v ms _ _ _ _ _ => sizeOf v + sizeOf ms
end

/-- The decoder is a left inverse of the encoder: `json.load` of what
`json.dump` wrote for a well-formed value returns an equal value. -/
theorem jsonLoads_dumps (v : PyValue) (h : wfV v = true) : jsonLoads (dumps v) = some v := by
  rw [jsonLoads]
  show (match readVal ((emit v).1.length + 1) (emit v).1 with
        | some (v, r) => if skipWs r = [] then some v else none
        | none => none) = _
  have h1 := rt_val v ((emit v).1.length + 1) [] h (by omega) rfl
  rw [List.append_nil] at h1
  rw [h1]
  rfl

/-! ### How a run evaluates on each path -/

theorem run_eq_cfgMissing (ext : OAuthLib) (fs0 : FS) (hc : fs0 credPath = none) :
    run ext fs0 = ⟨fs0, [], .error .fileNotFound⟩ := by
  rw [run.eq_def, hc]

theorem run_eq_cfgBad (ext : OAuthLib) (fs0 : FS) (text : String)
    (hc : fs0 credPath = some text) (hj : jsonLoads text = none) :
    run ext fs0 = ⟨fs0, [.fileRead credPath], .error .jsonDecodeError⟩ := by
  rw [run.eq_def, hc]
  show (match jsonLoads text with
        | none => RunResult.mk fs0 [.fileRead credPath] (.error .jsonDecodeError)
        | some client_secrets => _) = _
  rw [hj]

theorem run_eq_authFail (ext : OAuthLib) (fs0 : FS) (text : String) (secrets : PyValue)
    (msg : String) (hc : fs0 credPath = some text) (hj : jsonLoads text = some secrets)
    (ha : ext.authenticate (mkManager secrets none) [Scope.CALENDAR] = .error msg) :
    run ext fs0 = ⟨fs0,
      [.fileRead credPath,
       .managerConstructed secrets (mkManager secrets none).redirect_uri,
       .authCalled (mkManager secrets none) [Scope.CALENDAR]],
      .error (.authError msg)⟩ := by
  rw [run.eq_def, hc]
  show (match jsonLoads text with
        | none => RunResult.mk fs0 [.fileRead credPath] (.error .jsonDecodeError)
        | some client_secrets =>
          match ext.authenticate (mkManager client_secrets none) [Scope.CALENDAR] with
          | .error msg =>
              RunResult.mk fs0
                [.fileRead credPath,
                 .managerConstructed client_secrets (mkManager client_secrets none).redirect_uri,
                 .authCalled (mkManager client_secrets none) [Scope.CALENDAR]]
                (.error (.authError msg))
          | .ok user_info =>
              RunResult.mk (setFile fs0 tokenPath ⟨(emit user_info).1⟩)
                [.fileRead credPath,
                 .managerConstructed client_secrets (mkManager client_secrets none).redirect_uri,
                 .authCalled (mkManager client_secrets none) [Scope.CALENDAR],
                 .fileWrite tokenPath]
                (if (emit user_info).2 then .ok () else .error .typeError)) = _
  rw [hj]
  show (match ext.authenticate (mkManager secrets none) [Scope.CALENDAR] with
        | .error msg =>
            RunResult.mk fs0
              [.fileRead credPath,
               .managerConstructed secrets (mkManager secrets none).redirect_uri,
               .authCalled (mkManager secrets none) [Scope.CALENDAR]]
              (.error (.authError msg))
        | .ok user_info =>
            RunResult.mk (setFile fs0 tokenPath ⟨(emit user_info).1⟩)
              [.fileRead credPath,
               .managerConstructed secrets (mkManager secrets none).redirect_uri,
               .authCalled (mkManager secrets none) [Scope.CALENDAR],
               .fileWrite tokenPath]
              (if (emit user_info).2 then .ok () else .error .typeError)) = _
  rw [ha]

theorem run_eq_auth_ok (ext : OAuthLib) (fs0 : FS) (text : String) (secrets : PyValue)
    (v : PyValue) (hc : fs0 credPath = some text) (hj : jsonLoads text = some secrets)
    (ha : ext.authenticate (mkManager secrets none) [Scope.CALENDAR] = .ok v) :
    run ext fs0 = ⟨setFile fs0 tokenPath ⟨(emit v).1⟩,
      [.fileRead credPath,
       .managerConstructed secrets (mkManager secrets none).redirect_uri,
       .authCalled (mkManager secrets none) [Scope.CALENDAR],
       .fileWrite tokenPath],
      if (emit v).2 then .ok () else .error .typeError⟩ := by
  rw [run.eq_def, hc]
  show (match jsonLoads text with
        | none => RunResult.mk fs0 [.fileRead credPath] (.error .jsonDecodeError)
        | some client_secrets =>
          match ext.authenticate (mkManager client_secrets none) [Scope.CALENDAR] with
          | .error msg =>
              RunResult.mk fs0
                [.fileRead credPath,
                 .managerConstructed client_secrets (mkManager client_secrets none).redirect_uri,
                 .authCalled (mkManager client_secrets none) [Scope.CALENDAR]]
                (.error (.authError msg))
          | .ok user_info =>
              RunResult.mk (setFile fs0 tokenPath ⟨(emit user_info).1⟩)
                [.fileRead credPath,
                 .managerConstructed client_secrets (mkManager client_secrets none).redirect_uri,
                 .authCalled (mkManager client_secrets none) [Scope.CALENDAR],
                 .fileWrite tokenPath]
                (if (emit user_info).2 then .ok () else .error .typeError)) = _
  rw [hj]
  show (match ext.authenticate (mkManager secrets none) [Scope.CALENDAR] with
        | .error msg =>
            RunResult.mk fs0
              [.fileRead credPath,
               .managerConstructed secrets (mkManager secrets none).redirect_uri,
               .authCalled (mkManager secrets none) [Scope.CALENDAR]]
              (.error (.authError msg))
        | .ok user_info =>
            RunResult.mk (setFile fs0 tokenPath ⟨(emit user_info).1⟩)
              [.fileRead credPath,
               .managerConstructed secrets (mkManager secrets none).redirect_uri,
               .authCalled (mkManager secrets none) [Scope.CALENDAR],
               .fileWrite tokenPath]
              (if (emit user_info).2 then .ok () else .error .typeError)) = _
  rw [ha]

/-! ### The claims -/

/-- C1: on a successful run, the file written to `user_token.json` is exactly
the JSON serialization of the structure the authenticate call returned, and
parsing that written content yields a structure equal field-for-field to the
in-memory one (the round-trip is lossless).  `wfV v` states that `v` is a
value a successful `json.dump` can be given: built of JSON-serializable
parts, with distinct keys at every dict level, as every Python dict has. -/
theorem C1_token_roundtrip (ext : OAuthLib) (fs0 : FS) (text : String) (secrets v : PyValue)
    (hc : fs0 credPath = some text) (hj : jsonLoads text = some secrets)
    (ha : ext.authenticate (mkManager secrets none) [Scope.CALENDAR] = Except.ok v)
    (hwf : wfV v = true) :
    (run ext fs0).outcome = Except.ok () ∧
    (run ext fs0).fs tokenPath = some (dumps v) ∧
    jsonLoads (dumps v) = some v := by
  rw [run_eq_auth_ok ext fs0 text secrets v hc hj ha]
  refine ⟨?_, ?_, jsonLoads_dumps v hwf⟩
  · show (if (emit v).2 then Except.ok () else Except.error Fault.typeError) = _
    rw [if_pos (emit_ok_v v hwf)]
  · show setFile fs0 tokenPath ⟨(emit v).1⟩ tokenPath = some (dumps v)
    rw [setFile, if_pos rfl]
    rfl

/-- Witness for C1 at a concrete library behaviour and filesystem. -/
theorem C1_token_roundtrip_witness :
    (run libOk fsCred).outcome = Except.ok () ∧
    (run libOk fsCred).fs tokenPath = some (dumps vTok) ∧
    jsonLoads (dumps vTok) = some vTok :=
  C1_token_roundtrip libOk fsCred "\x7b\x7d" (.pydict []) vTok rfl rfl rfl rfl

/-- C2: whatever the filesystem holds and however the library behaves, the
scope list the script passes to the authenticate call is exactly the
one-element list holding the calendar scope. -/
theorem C2_scopes (ext : OAuthLib) (fs0 : FS) (mgr : GoogleOAuthManager) (scopes : List Scope)
    (h : Event.authCalled mgr scopes ∈ (run ext fs0).events) :
    scopes = [Scope.CALENDAR] ∧ scopes.length = 1 := by
  have hres : scopes = [Scope.CALENDAR] := by
    rcases hcp : fs0 credPath with _ | text
    · rw [run_eq_cfgMissing ext fs0 hcp] at h
      exact absurd h (List.not_mem_nil _)
    · rcases hj : jsonLoads text with _ | secrets
      · rw [run_eq_cfgBad ext fs0 text hcp hj] at h
        rw [List.mem_singleton] at h
        exact Event.noConfusion h
      · rcases ha : ext.authenticate (mkManager secrets none) [Scope.CALENDAR] with msg | v
        · rw [run_eq_authFail ext fs0 text secrets msg hcp hj ha] at h
          simp only [List.mem_cons, List.not_mem_nil, or_false] at h
          rcases h with h | h | h
          · exact Event.noConfusion h
          · exact Event.noConfusion h
          · injection h with h1 h2
        · rw [run_eq_auth_ok ext fs0 text secrets v hcp hj ha] at h
          simp only [List.mem_cons, List.not_mem_nil, or_false] at h
          rcases h with h | h | h | h
          · exact Event.noConfusion h
          · exact Event.noConfusion h
          · injection h with h1 h2
          · exact Event.noConfusion h
  exact ⟨hres, by rw [hres]; rfl⟩

/-- Witness for C2: a run that reaches the authenticate call. -/
theorem C2_scopes_witness :
    ([Scope.CALENDAR] : List Scope) = [Scope.CALENDAR] ∧
    ([Scope.CALENDAR] : List Scope).length = 1 :=
  C2_scopes libDenied fsCred (mkManager (.pydict []) none) [Scope.CALENDAR]
    (List.Mem.tail _ (List.Mem.tail _ (List.Mem.head _)))

/-- C3: if the authenticate call raises, the run ends with that fault and the
whole filesystem — in particular `user_token.json` — is exactly as before:
the file is neither created nor modified. -/
theorem C3_auth_fault_no_write (ext : OAuthLib) (fs0 : FS) (text : String) (secrets : PyValue)
    (msg : String) (hc : fs0 credPath = some text) (hj : jsonLoads text = some secrets)
    (ha : ext.authenticate (mkManager secrets none) [Scope.CALENDAR] = Except.error msg) :
    (run ext fs0).fs = fs0 ∧
    (run ext fs0).fs tokenPath = fs0 tokenPath ∧
    (run ext fs0).outcome = Except.error (Fault.authError msg) := by
  rw [run_eq_authFail ext fs0 text secrets msg hc hj ha]
  exact ⟨rfl, rfl, rfl⟩

/-- Witness for C3 at a concrete failing library. -/
theorem C3_auth_fault_no_write_witness :
    (run libDenied fsCred).fs = fsCred ∧
    (run libDenied fsCred).fs tokenPath = fsCred tokenPath ∧
    (run libDenied fsCred).outcome = Except.error (Fault.authError "access_denied") :=
  C3_auth_fault_no_write libDenied fsCred "\x7b\x7d" (.pydict []) "access_denied" rfl rfl rfl

/-- C4: if `credentials.json` is absent, or present but not decodable as
JSON, the run terminates with the corresponding unhandled fault, and its
trace holds no authenticate call and no manager construction. -/
theorem C4_bad_config (ext : OAuthLib) (fs0 : FS)
    (h : fs0 credPath = none ∨ ∃ text, fs0 credPath = some text ∧ jsonLoads text = none) :
    ((run ext fs0).outcome = Except.error Fault.fileNotFound ∨
      (run ext fs0).outcome = Except.error Fault.jsonDecodeError) ∧
    (∀ e ∈ (run ext fs0).events,
      (∀ m s, e ≠ Event.authCalled m s) ∧ (∀ s r, e ≠ Event.managerConstructed s r)) := by
  rcases h with hc | ⟨text, hc, hj⟩
  · rw [run_eq_cfgMissing ext fs0 hc]
    exact ⟨Or.inl rfl, fun e he => absurd he (List.not_mem_nil e)⟩
  · rw [run_eq_cfgBad ext fs0 text hc hj]
    refine ⟨Or.inr rfl, ?_⟩
    intro e he
    rw [List.mem_singleton] at he
    subst he
    exact ⟨fun m s hne => Event.noConfusion hne, fun s r hne => Event.noConfusion hne⟩

/-- Witness for C4 on an empty filesystem. -/
theorem C4_bad_config_witness :
    (run libOk fsEmpty).outcome = Except.error Fault.fileNotFound ∨
    (run libOk fsEmpty).outcome = Except.error Fault.jsonDecodeError :=
  (C4_bad_config libOk fsEmpty (Or.inl rfl)).1

/-- C5: whatever `user_token.json` held before, a run whose authenticate call
returns a serializable structure overwrites the file with exactly that
structure's serialization: the result does not depend on the old content,
so nothing of it survives. -/
theorem C5_overwrite (ext : OAuthLib) (fs0 : FS) (old text : String) (secrets v : PyValue)
    (hc : fs0 credPath = some text) (hj : jsonLoads text = some secrets)
    (ha : ext.authenticate (mkManager secrets none) [Scope.CALENDAR] = Except.ok v)
    (hs : (emit v).2 = true) :
    (run ext (setFile fs0 tokenPath old)).fs tokenPath = some (dumps v) ∧
    (run ext (setFile fs0 tokenPath old)).outcome = Except.ok () := by
  have hc2 : (setFile fs0 tokenPath old) credPath = some text := by
    rw [setFile, if_neg (by decide)]
    exact hc
  rw [run_eq_auth_ok ext (setFile fs0 tokenPath old) text secrets v hc2 hj ha]
  refine ⟨?_, ?_⟩
  · show setFile (setFile fs0 tokenPath old) tokenPath ⟨(emit v).1⟩ tokenPath = some (dumps v)
    rw [setFile, if_pos rfl]
    rfl
  · show (if (emit v).2 then Except.ok () else Except.error Fault.typeError) = _
    rw [if_pos hs]

/-- Witness for C5: the previous token file content `OLD` is wiped. -/
theorem C5_overwrite_witness :
    (run libOk (setFile fsCred tokenPath "OLD")).fs tokenPath = some (dumps vTok) ∧
    (run libOk (setFile fsCred tokenPath "OLD")).outcome = Except.ok () :=
  C5_overwrite libOk fsCred "OLD" "\x7b\x7d" (.pydict []) vTok rfl rfl rfl rfl

/-- C6: the script passes no redirect URI, so the manager the run constructs
uses the constructor's default redirect target — the loopback address on
port 8080 (`http://localhost:8080`), as the spec describes the external
constructor's default. -/
theorem C6_redirect (ext : OAuthLib) (fs0 : FS) (s : PyValue) (r : String)
    (h : Event.managerConstructed s r ∈ (run ext fs0).events) :
    r = "http://localhost:8080" := by
  rcases hcp : fs0 credPath with _ | text
  · rw [run_eq_cfgMissing ext fs0 hcp] at h
    exact absurd h (List.not_mem_nil _)
  · rcases hj : jsonLoads text with _ | secrets
    · rw [run_eq_cfgBad ext fs0 text hcp hj] at h
      rw [List.mem_singleton] at h
      exact Event.noConfusion h
    · rcases ha : ext.authenticate (mkManager secrets none) [Scope.CALENDAR] with msg | v
      · rw [run_eq_authFail ext fs0 text secrets msg hcp hj ha] at h
        simp only [List.mem_cons, List.not_mem_nil, or_false] at h
        rcases h with h | h | h
        · exact Event.noConfusion h
        · injection h with h1 h2
        · exact Event.noConfusion h
      · rw [run_eq_auth_ok ext fs0 text secrets v hcp hj ha] at h
        simp only [List.mem_cons, List.not_mem_nil, or_false] at h
        rcases h with h | h | h | h
        · exact Event.noConfusion h
        · injection h with h1 h2
        · exact Event.noConfusion h
        · exact Event.noConfusion h

/-- Witness for C6: a run that constructs the manager. -/
theorem C6_redirect_witness : "http://localhost:8080" = "http://localhost:8080" :=
  C6_redirect libDenied fsCred (.pydict []) "http://localhost:8080"
    (List.Mem.tail _ (List.Mem.head _))

/-- C7: the client secrets file is only read: after any run — successful or
not — the contents at `credentials.json` are exactly what they were before. -/
theorem C7_cred_readonly (ext : OAuthLib) (fs0 : FS) :
    (run ext fs0).fs credPath = fs0 credPath := by
  rcases hcp : fs0 credPath with _ | text
  · rw [run_eq_cfgMissing ext fs0 hcp]
    exact hcp
  · rcases hj : jsonLoads text with _ | secrets
    · rw [run_eq_cfgBad ext fs0 text hcp hj]
      exact hcp
    · rcases ha : ext.authenticate (mkManager secrets none) [Scope.CALENDAR] with msg | v
      · rw [run_eq_authFail ext fs0 text secrets msg hcp hj ha]
        exact hcp
      · rw [run_eq_auth_ok ext fs0 text secrets v hcp hj ha]
        show setFile fs0 tokenPath ⟨(emit v).1⟩ credPath = some text
        rw [setFile, if_neg (by decide)]
        exact hcp

/-- C8: every run's trace is an in-order prefix of the four steps
read-config, construct-manager, authenticate, write-token: steps happen in
that order, none is re-entered, and in particular the write to
`user_token.json` never precedes the authenticate call. -/
theorem C8_linear (ext : OAuthLib) (fs0 : FS) :
    (run ext fs0).events.map eventKind
      = List.take (run ext fs0).events.length [0, 1, 2, 3] := by
  rcases hcp : fs0 credPath with _ | text
  · rw [run_eq_cfgMissing ext fs0 hcp]
    rfl
  · rcases hj : jsonLoads text with _ | secrets
    · rw [run_eq_cfgBad ext fs0 text hcp hj]
      rfl
    · rcases ha : ext.authenticate (mkManager secrets none) [Scope.CALENDAR] with msg | v
      · rw [run_eq_authFail ext fs0 text secrets msg hcp hj ha]
        rfl
      · rw [run_eq_auth_ok ext fs0 text secrets v hcp hj ha]
        rfl

/-- C9: when the authenticate call returns a structure `json.dump` cannot
serialize, the run still opens `user_token.json` with mode `w` — truncating
it — before the encoder raises `TypeError`, so any previously stored token
is destroyed: the file ends up holding exactly the prefix the streaming
encoder emitted before it failed (possibly empty), not the old content and
not a complete document.  The write step is not atomic on this error path. -/
theorem C9_partial_write (ext : OAuthLib) (fs0 : FS) (text old : String) (secrets v : PyValue)
    (hc : fs0 credPath = some text) (hj : jsonLoads text = some secrets)
    (ha : ext.authenticate (mkManager secrets none) [Scope.CALENDAR] = Except.ok v)
    (hns : (emit v).2 = false) (hold : fs0 tokenPath = some old) :
    (run ext fs0).outcome = Except.error Fault.typeError ∧
    (run ext fs0).fs tokenPath = some ⟨(emit v).1⟩ := by
  rw [run_eq_auth_ok ext fs0 text secrets v hc hj ha]
  refine ⟨?_, ?_⟩
  · show (if (emit v).2 then Except.ok () else Except.error Fault.typeError) = _
    rw [hns]
    rfl
  · show setFile fs0 tokenPath ⟨(emit v).1⟩ tokenPath = some ⟨(emit v).1⟩
    rw [setFile, if_pos rfl]

/-- Witness for C9: a stored token `OLD` is replaced by the partial output
the encoder wrote before failing on the second dict member. -/
theorem C9_partial_write_witness :
    (run libBad (setFile fsCred tokenPath "OLD")).outcome = Except.error Fault.typeError ∧
    (run libBad (setFile fsCred tokenPath "OLD")).fs tokenPath = some ⟨(emit vBad).1⟩ :=
  C9_partial_write libBad (setFile fsCred tokenPath "OLD") "\x7b\x7d" "OLD" (.pydict []) vBad
    rfl rfl rfl rfl rfl

/-- C10: the bytes written to `user_token.json` are a function of the
structure the authenticate call returned alone: two runs — with different
library behaviours and different starting filesystems — whose authenticate
calls return equal structures end with byte-identical token files. -/
theorem C10_deterministic (ext ext2 : OAuthLib) (fs0 fs02 : FS) (text text2 : String)
    (secrets secrets2 v : PyValue)
    (hc : fs0 credPath = some text) (hj : jsonLoads text = some secrets)
    (ha : ext.authenticate (mkManager secrets none) [Scope.CALENDAR] = Except.ok v)
    (hc2 : fs02 credPath = some text2) (hj2 : jsonLoads text2 = some secrets2)
    (ha2 : ext2.authenticate (mkManager secrets2 none) [Scope.CALENDAR] = Except.ok v) :
    (run ext fs0).fs tokenPath = (run ext2 fs02).fs tokenPath := by
  rw [run_eq_auth_ok ext fs0 text secrets v hc hj ha,
      run_eq_auth_ok ext2 fs02 text2 secrets2 v hc2 hj2 ha2]
  show setFile fs0 tokenPath ⟨(emit v).1⟩ tokenPath
      = setFile fs02 tokenPath ⟨(emit v).1⟩ tokenPath
  rw [setFile, setFile, if_pos rfl, if_pos rfl]

/-- Witness for C10: same returned structure, different filesystems. -/
theorem C10_deterministic_witness :
    (run libOk fsCred).fs tokenPath
      = (run libOk (setFile fsCred tokenPath "OLD")).fs tokenPath :=
  C10_deterministic libOk libOk fsCred (setFile fsCred tokenPath "OLD") "\x7b\x7d" "\x7b\x7d"
    (.pydict []) (.pydict []) vTok rfl rfl rfl rfl rfl rfl
